import Mathlib

/-!
# Verification of the splash script-execution bridge utilities

A shallow embedding of the repository's value marshalling, string
conversion, path joining and operation-result utilities, with theorems
checking the natural-language specification against them.

Parts embedded from `src/splash/utils.py`: `to_unicode`, `to_bytes`
(modelled with the default UTF-8 codec and strict error handling),
`path_join_secure` (over a POSIX path model), `PyResult.__init__` and
`ensure_tuple`.

Parts whose implementation is not in `src/` (only their tests are) are
modelled from the spec, as marked in the individual doc comments.
-/

namespace Splash

/-! ## Unicode code points and UTF-8 (model of Python `str.encode` /
`bytes.decode` with the default `utf-8` codec and `strict` errors) -/

/-- A code point a Python `str` can carry that the strict UTF-8 codec
accepts: below `0x110000` and not a surrogate. -/
def ValidCP (c : Nat) : Prop := c < 1114112 ∧ (c < 55296 ∨ 57344 ≤ c)

instance (c : Nat) : Decidable (ValidCP c) := by
  unfold ValidCP; infer_instance

/-- Boolean form of `ValidCP`. -/
def validCPb (c : Nat) : Bool := decide (ValidCP c)

/-- UTF-8 encoding of a single code point (the byte sequence the codec
emits for a scalar value; surrogates are excluded by `ValidCP` before
this is used). -/
def encodeChar (c : Nat) : List Nat :=
  if c < 128 then [c]
  else if c < 2048 then [192 + c / 64, 128 + c % 64]
  else if c < 65536 then [224 + c / 4096, 128 + c / 64 % 64, 128 + c % 64]
  else [240 + c / 262144, 128 + c / 4096 % 64, 128 + c / 64 % 64, 128 + c % 64]

/-- UTF-8 encoding of a sequence of code points. -/
def utf8Encode : List Nat → List Nat
  | [] => []
  | c :: rest => encodeChar c ++ utf8Encode rest

/-- One step of strict UTF-8 decoding: reads a single code point off the
front of the byte list, rejecting stray continuation bytes, truncated
sequences, overlong encodings, surrogates and values above `0x10FFFF`,
as CPython's strict `utf-8` decoder does. -/
def decodeOne : List Nat → Option (Nat × List Nat)
  | [] => none
  | b :: rest =>
    if b < 128 then some (b, rest)
    else if b < 192 then none
    else if b < 224 then
      match rest with
      | b1 :: rest1 =>
        if 128 ≤ b1 ∧ b1 < 192 then
          if 128 ≤ (b - 192) * 64 + (b1 - 128) then
            some ((b - 192) * 64 + (b1 - 128), rest1)
          else none
        else none
      | [] => none
    else if b < 240 then
      match rest with
      | b1 :: b2 :: rest2 =>
        if (128 ≤ b1 ∧ b1 < 192) ∧ (128 ≤ b2 ∧ b2 < 192) then
          if 2048 ≤ (b - 224) * 4096 + (b1 - 128) * 64 + (b2 - 128) ∧
             ((b - 224) * 4096 + (b1 - 128) * 64 + (b2 - 128) < 55296 ∨
              57344 ≤ (b - 224) * 4096 + (b1 - 128) * 64 + (b2 - 128)) then
            some ((b - 224) * 4096 + (b1 - 128) * 64 + (b2 - 128), rest2)
          else none
        else none
      | _ => none
    else if b < 248 then
      match rest with
      | b1 :: b2 :: b3 :: rest3 =>
        if (128 ≤ b1 ∧ b1 < 192) ∧ (128 ≤ b2 ∧ b2 < 192) ∧ (128 ≤ b3 ∧ b3 < 192) then
          if 65536 ≤ (b - 240) * 262144 + (b1 - 128) * 4096 + (b2 - 128) * 64 + (b3 - 128) ∧
             (b - 240) * 262144 + (b1 - 128) * 4096 + (b2 - 128) * 64 + (b3 - 128) < 1114112 then
            some ((b - 240) * 262144 + (b1 - 128) * 4096 + (b2 - 128) * 64 + (b3 - 128), rest3)
          else none
        else none
      | _ => none
    else none

/-- Strict UTF-8 decoding loop; `fuel` bounds the number of decoded code
points (each `decodeOne` step consumes at least one byte, so the input
length is always enough fuel). -/
def utf8DecodeAux : Nat → List Nat → Option (List Nat)
  | _, [] => some []
  | 0, _ :: _ => none
  | fuel + 1, b :: rest =>
    match decodeOne (b :: rest) with
    | some (c, rest1) => (utf8DecodeAux fuel rest1).map (fun cs => c :: cs)
    | none => none

/-- Strict UTF-8 decoding of a whole byte sequence (model of
`bytes.decode('utf-8', 'strict')`). -/
def utf8Decode (bs : List Nat) : Option (List Nat) :=
  utf8DecodeAux bs.length bs

/-- A Python value at the `to_unicode` / `to_bytes` boundary: a `str`
(sequence of code points), a `bytes` object, or anything else. -/
inductive PyText where
  | pstr (cps : List Nat)
  | pbytes (bs : List Nat)
  | pother
  deriving DecidableEq

/-- Embeds `utils.to_bytes` with the default encoding (`utf-8`) and
strict errors: `bytes` pass through, `str` is UTF-8 encoded (failing on
surrogates), anything else raises `TypeError`. -/
def to_bytes : PyText → Except String (List Nat)
  | .pbytes bs => .ok bs
  | .pstr cps =>
      if cps.all validCPb then .ok (utf8Encode cps)
      else .error "UnicodeEncodeError"
  | .pother => .error "to_bytes must receive a unicode, str or bytes object"

/-- Embeds `utils.to_unicode` with the default encoding (`utf-8`) and
strict errors: `str` passes through, `bytes` is strictly UTF-8 decoded,
anything else raises `TypeError`. -/
def to_unicode : PyText → Except String (List Nat)
  | .pstr cps => .ok cps
  | .pbytes bs =>
      match utf8Decode bs with
      | some cps => .ok cps
      | none => .error "UnicodeDecodeError"
  | .pother => .error "to_unicode must receive a bytes, str or unicode object"

/-- Decoding one step on the encoding of a valid code point yields that
code point and leaves the remaining bytes untouched. -/
theorem decodeOne_encodeChar (c : Nat) (h : ValidCP c) (rest : List Nat) :
    decodeOne (encodeChar c ++ rest) = some (c, rest) := by
  obtain ⟨h1, h2⟩ := h
  by_cases hc1 : c < 128
  · simp only [encodeChar, if_pos hc1, List.cons_append, List.nil_append, decodeOne,
      if_pos hc1]
  · by_cases hc2 : c < 2048
    · have e1 : ¬ (192 + c / 64 < 128) := by omega
      have e2 : ¬ (192 + c / 64 < 192) := by omega
      have e3 : 192 + c / 64 < 224 := by omega
      have e4 : 128 ≤ 128 + c % 64 ∧ 128 + c % 64 < 192 := by omega
      have e5 : (192 + c / 64 - 192) * 64 + (128 + c % 64 - 128) = c := by omega
      simp only [encodeChar, if_neg hc1, if_pos hc2, List.cons_append, List.nil_append,
        decodeOne, if_neg e1, if_neg e2, if_pos e3, if_pos e4, e5, if_pos (by omega : 128 ≤ c)]
    · by_cases hc3 : c < 65536
      · have e1 : ¬ (224 + c / 4096 < 128) := by omega
        have e2 : ¬ (224 + c / 4096 < 192) := by omega
        have e3 : ¬ (224 + c / 4096 < 224) := by omega
        have e4 : 224 + c / 4096 < 240 := by omega
        have e5 : (128 ≤ 128 + c / 64 % 64 ∧ 128 + c / 64 % 64 < 192) ∧
            (128 ≤ 128 + c % 64 ∧ 128 + c % 64 < 192) := by omega
        have e6 : (224 + c / 4096 - 224) * 4096 + (128 + c / 64 % 64 - 128) * 64 +
            (128 + c % 64 - 128) = c := by omega
        simp only [encodeChar, if_neg hc1, if_neg hc2, if_pos hc3, List.cons_append,
          List.nil_append, decodeOne, if_neg e1, if_neg e2, if_neg e3, if_pos e4, if_pos e5,
          e6, if_pos (by omega : 2048 ≤ c ∧ (c < 55296 ∨ 57344 ≤ c))]
      · have e1 : ¬ (240 + c / 262144 < 128) := by omega
        have e2 : ¬ (240 + c / 262144 < 192) := by omega
        have e3 : ¬ (240 + c / 262144 < 224) := by omega
        have e4 : ¬ (240 + c / 262144 < 240) := by omega
        have e5 : 240 + c / 262144 < 248 := by omega
        have e6 : (128 ≤ 128 + c / 4096 % 64 ∧ 128 + c / 4096 % 64 < 192) ∧
            (128 ≤ 128 + c / 64 % 64 ∧ 128 + c / 64 % 64 < 192) ∧
            (128 ≤ 128 + c % 64 ∧ 128 + c % 64 < 192) := by omega
        have e7 : (240 + c / 262144 - 240) * 262144 + (128 + c / 4096 % 64 - 128) * 4096 +
            (128 + c / 64 % 64 - 128) * 64 + (128 + c % 64 - 128) = c := by omega
        simp only [encodeChar, if_neg hc1, if_neg hc2, if_neg hc3, List.cons_append,
          List.nil_append, decodeOne, if_neg e1, if_neg e2, if_neg e3, if_neg e4, if_pos e5,
          if_pos e6, e7, if_pos (by omega : 65536 ≤ c ∧ c < 1114112)]

/-- The encoding of a code point is never empty. -/
theorem encodeChar_ne_nil (c : Nat) : encodeChar c ≠ [] := by
  unfold encodeChar
  split
  · simp
  · split
    · simp
    · split <;> simp

/-- The encoding of a sequence is at least as long as the sequence. -/
theorem length_le_utf8Encode_length (cps : List Nat) :
    cps.length ≤ (utf8Encode cps).length := by
  induction cps with
  | nil => simp [utf8Encode]
  | cons c rest ih =>
      have h1 : 1 ≤ (encodeChar c).length := by
        cases hE : encodeChar c with
        | nil => exact absurd hE (encodeChar_ne_nil c)
        | cons b tl => simp
      simp only [utf8Encode, List.length_append, List.length_cons]
      omega

/-- With enough fuel (one unit per code point), the decoding loop
inverts encoding on sequences of valid code points. -/
theorem utf8DecodeAux_utf8Encode (cps : List Nat) (h : ∀ c ∈ cps, ValidCP c) :
    ∀ fuel, cps.length ≤ fuel → utf8DecodeAux fuel (utf8Encode cps) = some cps := by
  induction cps with
  | nil => intro fuel hf; cases fuel <;> rfl
  | cons c rest ih =>
      intro fuel hf
      have hc : ValidCP c := h c (List.mem_cons_self c rest)
      have hrest : ∀ x ∈ rest, ValidCP x := fun x hx => h x (List.mem_cons_of_mem c hx)
      cases fuel with
      | zero => simp at hf
      | succ f =>
          have hlen : rest.length ≤ f := by simp at hf; omega
          cases hE : encodeChar c with
          | nil => exact absurd hE (encodeChar_ne_nil c)
          | cons b tl =>
              have hdec : decodeOne (b :: (tl ++ utf8Encode rest)) = some (c, utf8Encode rest) := by
                rw [← List.cons_append, ← hE]
                exact decodeOne_encodeChar c hc (utf8Encode rest)
              calc utf8DecodeAux (f + 1) (utf8Encode (c :: rest))
                  = utf8DecodeAux (f + 1) (b :: (tl ++ utf8Encode rest)) := by
                    simp only [utf8Encode, hE, List.cons_append]
                _ = (utf8DecodeAux f (utf8Encode rest)).map (fun cs => c :: cs) := by
                    simp only [utf8DecodeAux, hdec]
                _ = some (c :: rest) := by rw [ih hrest f hlen]; rfl

/-- Strict UTF-8 decoding inverts encoding on sequences of valid code
points. -/
theorem utf8Decode_utf8Encode (cps : List Nat) (h : ∀ c ∈ cps, ValidCP c) :
    utf8Decode (utf8Encode cps) = some cps := by
  exact utf8DecodeAux_utf8Encode cps h (utf8Encode cps).length
    (length_le_utf8Encode_length cps)

/-! ## Script-language values (the `MarshalledValue` domain of spec §3)

Modelled from the spec: the marshaller implementation is not under
`src/`, only its tests are.  Tables and arrays are given their own list
types so that all recursions below are structural. -/

/-- A table key: the script language allows string and number keys. -/
inductive LKey where
  | kstr (s : String)
  | knum (q : Rat)
  deriving DecidableEq

mutual
/-- A script-language value crossing the bridge: `Nil`, booleans,
numbers, strings, tables, the distinguishable array kind, and opaque
functions. -/
inductive LV where
  | lnil
  | lbool (b : Bool)
  | lnum (q : Rat)
  | lstr (s : String)
  | lfunc (id : Nat)
  | ltable (fields : LFields)
  | larr (elems : LElems)

/-- The ordered key→value entries of a table. -/
inductive LFields where
  | nilF
  | consF (k : LKey) (v : LV) (rest : LFields)

/-- The ordered elements of an array-kind value. -/
inductive LElems where
  | nilE
  | consE (v : LV) (rest : LElems)
end

/-- Is this value `Nil`? -/
def isNil : LV → Bool
  | .lnil => true
  | _ => false

/-- `LFields` as a plain list of key/value pairs. -/
def fieldsList : LFields → List (LKey × LV)
  | .nilF => []
  | .consF k v rest => (k, v) :: fieldsList rest

/-- A JSON value (the host-side output domain of `to_host_json`). -/
inductive Json where
  | jnull
  | jbool (b : Bool)
  | jnum (q : Rat)
  | jstr (s : String)
  | jarr (elems : List Json)
  | jobj (entries : List (String × Json))

/-- String form of a table key, for JSON object emission. -/
def keyStr : LKey → String
  | .kstr s => s
  | .knum q => toString q

/-- Modelled from the spec (§4.1): a table is emitted as a JSON array
exactly when its (non-`Nil`-valued) keys are exactly `1..n` contiguous;
the test suite shows the empty table is emitted as an object, so `n = 0`
does not count. -/
def arrayLikeKeys (keys : List LKey) : Bool :=
  decide (keys ≠ [] ∧ keys = (List.range keys.length).map (fun i => LKey.knum ((i : Rat) + 1)))

mutual
/-- Modelled from the spec (§4.1 `to_host_json`): script values to host
JSON.  Entries whose value is `Nil` are omitted; a table whose remaining
keys are exactly `1..n` becomes an array, otherwise an object with
string keys.  Binary capsules are not modelled (no claim needs them);
opaque functions become `null`. -/
def toHostJson : LV → Json
  | .lnil => .jnull
  | .lbool b => .jbool b
  | .lnum q => .jnum q
  | .lstr s => .jstr s
  | .lfunc _ => .jnull
  | .larr es => .jarr (elemsJson es)
  | .ltable fields =>
      if arrayLikeKeys ((propsJson fields).map (fun kv => kv.1)) then
        .jarr ((propsJson fields).map (fun kv => kv.2))
      else
        .jobj ((propsJson fields).map (fun kv => (keyStr kv.1, kv.2)))

/-- The non-`Nil` entries of a table with their values sent to JSON. -/
def propsJson : LFields → List (LKey × Json)
  | .nilF => []
  | .consF k v rest =>
      if isNil v then propsJson rest
      else (k, toHostJson v) :: propsJson rest

/-- Array elements sent to JSON. -/
def elemsJson : LElems → List Json
  | .nilE => []
  | .consE v rest => toHostJson v :: elemsJson rest
end

/-- The non-`Nil` filtering of `propsJson`, stated over the plain list
form of the fields. -/
theorem propsJson_eq_filter : ∀ fields : LFields,
    propsJson fields =
      ((fieldsList fields).filter (fun kv => !(isNil kv.2))).map
        (fun kv => (kv.1, toHostJson kv.2))
  | .nilF => rfl
  | .consF k v rest => by
      by_cases hv : isNil v = true
      · simp [propsJson, fieldsList, hv, propsJson_eq_filter rest]
      · simp only [Bool.not_eq_true] at hv
        simp [propsJson, fieldsList, hv, propsJson_eq_filter rest]

/-! ## In-page values and `from_inpage` (spec §4.1)

Modelled from the spec: the in-page marshaller implementation is not
under `src/`, only its tests are.  In-page objects live in a heap keyed
by identity so that cyclic object graphs are expressible; cycles are
broken by the `seen` set of ancestor identities, the omitted-property
rule. -/

/-- An in-page (page script) value.  Objects are references into a heap
of identities so self-referential graphs can be written down. -/
inductive JSVal where
  | undef
  | jsnull
  | jsbool (b : Bool)
  | jsnum (q : Rat)
  | jsstr (s : String)
  | jsfunc
  | objRef (id : Nat)
  | jsarr (elems : List JSVal)

/-- An in-page object heap: object identity → its named properties. -/
def JSHeap := List (Nat × List (String × JSVal))

mutual
/-- Modelled from the spec (§4.1 `from_inpage`): `undefined` → `Nil`,
`null` → empty string, booleans/numbers/strings pass through by kind, a
bare function converts to `Nil`, arrays become the distinguishable
array kind, and objects become tables with their ancestors recorded in
`seen`.  `fuel` bounds recursion depth; every claim is settled with
enough fuel for its graph. -/
def fromInpage (heap : JSHeap) : Nat → List Nat → JSVal → LV
  | _, _, .undef => .lnil
  | _, _, .jsnull => .lstr ""
  | _, _, .jsbool b => .lbool b
  | _, _, .jsnum q => .lnum q
  | _, _, .jsstr s => .lstr s
  | _, _, .jsfunc => .lnil
  | 0, _, .objRef _ => .lnil
  | fuel + 1, seen, .objRef id =>
      match List.lookup id heap with
      | some props => .ltable (marshalProps heap fuel (id :: seen) props)
      | none => .lnil
  | 0, _, .jsarr _ => .larr .nilE
  | fuel + 1, seen, .jsarr es => .larr (marshalElems heap fuel seen es)

/-- Property marshalling: a property whose value is an ancestor
currently being marshalled (identity in `seen`) is omitted entirely; a
function-valued property becomes an empty table placeholder; all other
properties are marshalled recursively. -/
def marshalProps (heap : JSHeap) : Nat → List Nat → List (String × JSVal) → LFields
  | _, _, [] => .nilF
  | 0, _, _ :: _ => .nilF
  | fuel + 1, seen, (k, v) :: rest =>
      match v with
      | .objRef i =>
          if i ∈ seen then marshalProps heap fuel seen rest
          else .consF (.kstr k) (fromInpage heap fuel seen (.objRef i))
                 (marshalProps heap fuel seen rest)
      | .jsfunc => .consF (.kstr k) (.ltable .nilF) (marshalProps heap fuel seen rest)
      | _ => .consF (.kstr k) (fromInpage heap fuel seen v) (marshalProps heap fuel seen rest)

/-- Array element marshalling. -/
def marshalElems (heap : JSHeap) : Nat → List Nat → List JSVal → LElems
  | _, _, [] => .nilE
  | 0, _, _ :: _ => .nilE
  | fuel + 1, seen, v :: rest =>
      .consE (fromInpage heap fuel seen v) (marshalElems heap fuel seen rest)
end

/-! ## The operation-result protocol and the supervisor (spec §4.3–§4.4)

Modelled from the spec: the Lua bridge and supervisor are not under
`src/`, only their tests are.  Scripts are embedded as a minimal body
language rich enough for the claims: returning a value, reading an
attribute of the capability object, comparing to nil, and calling
`set_result_content_type`. -/

/-- The `OperationResult` tagged union every host-bound method returns. -/
inductive OpResult where
  | opReturn (vals : List LV)
  | opRaise (err : String)
  | opYield (vals : List LV)

/-- Modelled from the spec (§4.4): the content-type-override capability
validates that its argument is a non-empty string and otherwise fails
with `Raise`. -/
def setResultContentTypeOp (arg : Option LV) : OpResult :=
  match arg with
  | some (.lstr s) =>
      if s = "" then .opRaise "content_type must be a non-empty string"
      else .opReturn []
  | _ => .opRaise "content_type must be a non-empty string"

/-- A script expression: a literal, an attribute of the injected
capability object, or a comparison against nil. -/
inductive SExpr where
  | lit (v : LV)
  | splashAttr (name : String)
  | eqNilE (e : SExpr)

/-- The capability object: its defined attributes by name. -/
def Capability := List (String × LV)

/-- Expression evaluation.  Modelled from the spec (§4.2): accessing an
undefined attribute of the capability object does not raise, it yields
`Nil`. -/
def evalExpr (splash : Capability) : SExpr → LV
  | .lit v => v
  | .splashAttr name =>
      match List.lookup name splash with
      | some v => v
      | none => .lnil
  | .eqNilE e => .lbool (isNil (evalExpr splash e))

/-- An entrypoint body: return (with or without a value), or a call to
`set_result_content_type` followed by the rest of the body. -/
inductive Body where
  | ret (e : Option SExpr)
  | setContentType (arg : Option SExpr) (next : Body)

/-- A terminal outcome of running the entrypoint: `Done` with its
returned values and the recorded content-type override, or `Failed`
with an uncaught script error. -/
inductive Outcome where
  | done (vals : List LV) (ctOverride : Option String)
  | failed (err : String)

/-- Running a body against the capability object, threading the
content-type override.  A host-bound call answering `Raise` becomes a
script-level error; uncaught, it terminates the run as `Failed`. -/
def runBody (splash : Capability) : Body → Option String → Outcome
  | .ret none, ct => .done [] ct
  | .ret (some e), ct => .done [evalExpr splash e] ct
  | .setContentType argE next, ct =>
      match setResultContentTypeOp (argE.map (evalExpr splash)) with
      | .opReturn _ =>
          runBody splash next
            (match argE.map (evalExpr splash) with
             | some (.lstr s) => some s
             | _ => ct)
      | .opRaise msg => .failed msg
      | .opYield _ => .failed "unexpected yield"

/-- An HTTP body: empty, text bytes, or a JSON document. -/
inductive HttpBody where
  | empty
  | text (bytes : List Nat)
  | json (j : Json)

/-- An HTTP-shaped result: status, content type, body. -/
structure HttpResult where
  status : Nat
  contentType : String
  body : HttpBody

/-- UTF-8 bytes of a Lean string (all `Char`s are valid code points). -/
def utf8EncodeStr (s : String) : List Nat :=
  utf8Encode (s.data.map Char.toNat)

/-- The default content type for text results. -/
def plainTextUtf8 : String := "text/plain; charset=utf-8"

/-- Modelled from the spec (§4.4 result finalization): no value → empty
200; single string → its UTF-8 bytes as `text/plain; charset=utf-8`
unless overridden; single table → `application/json` via `to_host_json`
unless overridden; a boolean renders as Python's `True`/`False` text
(per the observed test); a `Failed` outcome is a Bad-Request-class 400.
Other return shapes are not specified and are finalized as empty 200. -/
def finalize : Outcome → HttpResult
  | .failed err => ⟨400, plainTextUtf8, .text (utf8EncodeStr err)⟩
  | .done vals ct =>
      match vals with
      | [] => ⟨200, ct.getD plainTextUtf8, .empty⟩
      | [.lstr s] => ⟨200, ct.getD plainTextUtf8, .text (utf8EncodeStr s)⟩
      | [.ltable fields] => ⟨200, ct.getD "application/json", .json (toHostJson (.ltable fields))⟩
      | [.lbool b] => ⟨200, ct.getD plainTextUtf8,
          .text (utf8EncodeStr (if b then "True" else "False"))⟩
      | _ => ⟨200, ct.getD plainTextUtf8, .empty⟩

/-- The global binding of the entrypoint name: either a plain (data)
value, or an actual function with a body. -/
inductive GMain where
  | gval (v : LV)
  | gfn (body : Body)

/-- Modelled from the spec (§4.3–§4.4): the supervisor validates the
entrypoint before wrapping it in a coroutine — a missing entrypoint or
one bound to a non-callable value (a table, say) is rejected with a
Bad-Entrypoint 400 before any coroutine exists.  The returned flag
records whether a coroutine was created (the entrypoint executed). -/
def supervise (mainBinding : Option GMain) (splash : Capability) : HttpResult × Bool :=
  match mainBinding with
  | none =>
      (⟨400, plainTextUtf8, .text (utf8EncodeStr "main function is not found")⟩, false)
  | some (.gval _) =>
      (⟨400, plainTextUtf8, .text (utf8EncodeStr "main is not a function")⟩, false)
  | some (.gfn body) => (finalize (runBody splash body none), true)

/-! ## POSIX path model and `path_join_secure` (from `utils.py`)

String primitives are implemented over `String.data` so that every
operation reduces in the kernel. -/

/-- Python `s.startswith(p)`. -/
def strStarts (s p : String) : Bool := p.data.isPrefixOf s.data

/-- Python `s.endswith(p)`. -/
def strEnds (s p : String) : Bool := p.data.isSuffixOf s.data

/-- Python `s.split('/')` on the character list. -/
def splitSlashCh : List Char → List (List Char)
  | [] => [[]]
  | c :: rest =>
      let r := splitSlashCh rest
      if c = '/' then [] :: r
      else
        match r with
        | g :: gs => (c :: g) :: gs
        | [] => [[c]]

/-- Python `path.split('/')`. -/
def splitSlash (s : String) : List String :=
  (splitSlashCh s.data).map (fun l => ⟨l⟩)

/-- Python `'/'.join(comps)`. -/
def joinSlash : List String → String
  | [] => ""
  | [x] => x
  | x :: rest => x ++ "/" ++ joinSlash rest

/-- `posixpath.isabs`. -/
def isAbs (p : String) : Bool := strStarts p "/"

/-- `posixpath.join` of a path with further components. -/
def pjoin (a : String) (ps : List String) : String :=
  ps.foldl
    (fun path b =>
      if strStarts b "/" then b
      else if path = "" ∨ strEnds path "/" then path ++ b
      else path ++ "/" ++ b)
    a

/-- `posixpath.normpath`: collapse repeated slashes, drop `.`, resolve
`..`, preserving the special leading `//`. -/
def normpath (path : String) : String :=
  if path = "" then "."
  else
    let initialSlashes : Nat :=
      if strStarts path "/" then
        if strStarts path "//" ∧ ¬ strStarts path "///" then 2 else 1
      else 0
    let comps := splitSlash path
    let newComps := comps.foldl
      (fun acc comp =>
        if comp = "" ∨ comp = "." then acc
        else if comp ≠ ".." ∨ (initialSlashes = 0 ∧ acc = []) ∨
                (acc ≠ [] ∧ acc.getLast? = some "..") then acc ++ [comp]
        else if acc ≠ [] then acc.dropLast
        else acc)
      []
    let joined := joinSlash newComps
    let p := (if initialSlashes = 2 then "//" else if initialSlashes = 1 then "/" else "") ++ joined
    if p = "" then "." else p

/-- `posixpath.abspath` with an explicit current working directory. -/
def abspath (cwd p : String) : String :=
  if isAbs p then normpath p else normpath (pjoin cwd [p])

/-- Embeds `utils.path_join_secure`: make `base` absolute, ensure it
ends with the separator, join and normalize the components, and raise
`ValueError` when the result does not start with the base prefix. -/
def path_join_secure (cwd : String) (base : String) (paths : List String) :
    Except String String :=
  let base1 := abspath cwd base
  let base2 := if strEnds base1 "/" then base1 else base1 ++ "/"
  let path := abspath cwd (pjoin base2 paths)
  if strStarts path base2 then .ok path
  else .error "Resulting path is outside base."

/-- The base prefix `path_join_secure` actually checks against: the
absolute form of `base`, with a separator appended only when not
already present. -/
def baseWithSep (cwd base : String) : String :=
  let base1 := abspath cwd base
  if strEnds base1 "/" then base1 else base1 ++ "/"

/-! ## `PyResult` and `ensure_tuple` (from `utils.py`) -/

/-- Embeds `PyResult.__init__`: `op` defaults to `return`, must be one
of `return`/`raise`/`yield` (else `ValueError`), and on success the
stored tuple is the op tag followed by the given results. -/
def pyResultInit (result : List LV) (kwargsOp : Option String) :
    Except String (List LV) :=
  let op := kwargsOp.getD "return"
  if op = "return" ∨ op = "raise" ∨ op = "yield" then
    .ok (.lstr op :: result)
  else
    .error "Invalid PyResult operation"

/-- A Python value at the `ensure_tuple` boundary: a tuple of values or
anything else. -/
inductive PyObj where
  | tup (elems : List PyObj)
  | other (id : Nat)

/-- Embeds `utils.ensure_tuple`: a tuple is returned as-is, any other
value is wrapped in a 1-tuple. -/
def ensure_tuple : PyObj → PyObj
  | .tup elems => .tup elems
  | v => .tup [v]

/-! ## Claim theorems -/

/-- C2: an entrypoint bound to a table value — whatever its fields, in
particular fields mimicking a coroutine-like interface — is rejected by
the supervisor with a Bad-Entrypoint 400 before any coroutine is
created (the flag stays `false`), so the disguised entrypoint never
executes. -/
theorem table_entrypoint_rejected (fields : LFields) (splash : Capability) :
    supervise (some (.gval (.ltable fields))) splash =
      (⟨400, plainTextUtf8, .text (utf8EncodeStr "main is not a function")⟩, false) := rfl

/-- C4: `from_inpage` maps in-page `undefined` to `Nil` and in-page
`null` to the empty string (not `Nil`); booleans, numbers and strings
pass through by kind; consequently a script cannot distinguish an
in-page `null` from an in-page empty string. -/
theorem from_inpage_scalars (heap : JSHeap) (fuel : Nat) (seen : List Nat) :
    fromInpage heap fuel seen .undef = .lnil
    ∧ fromInpage heap fuel seen .jsnull = .lstr ""
    ∧ (∀ b, fromInpage heap fuel seen (.jsbool b) = .lbool b)
    ∧ (∀ q, fromInpage heap fuel seen (.jsnum q) = .lnum q)
    ∧ (∀ s, fromInpage heap fuel seen (.jsstr s) = .lstr s)
    ∧ fromInpage heap fuel seen .jsnull = fromInpage heap fuel seen (.jsstr "") := by
  refine ⟨?_, ?_, fun b => ?_, fun q => ?_, fun s => ?_, ?_⟩ <;> simp [fromInpage]

/-- C5: for every string of valid Unicode code points,
`to_unicode(to_bytes(s))` is the identity with the default UTF-8
encoding; and a string returned directly by the entrypoint produces a
body byte-identical to its UTF-8 encoding with content type
`text/plain; charset=utf-8` and status 200. -/
theorem unicode_roundtrip :
    (∀ cps : List Nat, (∀ c ∈ cps, ValidCP c) →
      (to_bytes (.pstr cps)).bind (fun bs => to_unicode (.pbytes bs)) = Except.ok cps)
    ∧ (∀ (s : String) (splash : Capability),
        supervise (some (.gfn (.ret (some (.lit (.lstr s)))))) splash =
          (⟨200, plainTextUtf8, .text (utf8EncodeStr s)⟩, true)) := by
  constructor
  · intro cps h
    have hall : cps.all validCPb = true := by
      simp only [List.all_eq_true, validCPb]
      exact fun c hc => decide_eq_true (h c hc)
    simp only [to_bytes, hall, if_pos, Except.bind, to_unicode,
      utf8Decode_utf8Encode cps h]
  · intro s splash
    rfl

/-- C5 witness: the round trip on the code points of `"привет"`. -/
theorem unicode_roundtrip_witness :
    (to_bytes (.pstr [1087, 1088, 1080, 1074, 1077, 1090])).bind
        (fun bs => to_unicode (.pbytes bs)) =
      Except.ok [1087, 1088, 1080, 1074, 1077, 1090] :=
  unicode_roundtrip.1 [1087, 1088, 1080, 1074, 1077, 1090] (by decide)

/-- C6: a property whose value is an ancestor currently being
marshalled (its identity is in `seen`) is omitted entirely from the
resulting table; marshalling the self-referential object
`{x: "5", y: <self>}` yields the table `{x: "5"}` with no `y` key. -/
theorem cycle_property_omitted :
    (∀ (heap : JSHeap) (fuel : Nat) (seen : List Nat) (k : String) (i : Nat)
        (rest : List (String × JSVal)), i ∈ seen →
      marshalProps heap (fuel + 1) seen ((k, .objRef i) :: rest) =
        marshalProps heap fuel seen rest)
    ∧ fromInpage [(0, [("x", .jsstr "5"), ("y", .objRef 0)])] 10 [] (.objRef 0) =
        .ltable (.consF (.kstr "x") (.lstr "5") .nilF) := by
  constructor
  · intro heap fuel seen k i rest h
    simp [marshalProps, h]
  · rfl

/-- C6 witness: a property pointing at seen ancestor 7 is dropped. -/
theorem cycle_property_omitted_witness :
    marshalProps [] 3 [7] [("y", .objRef 7)] = marshalProps [] 2 [7] [] :=
  cycle_property_omitted.1 [] 2 [7] "y" 7 [] (by decide)

/-- C7: `PyResult` construction succeeds exactly for the ops `return`
(the default when absent), `raise` and `yield`, raises `ValueError`
otherwise, and on success stores the op tag as the first element of the
result tuple followed by the given values in order. -/
theorem pyresult_ops :
    (∀ result : List LV, pyResultInit result none = .ok (.lstr "return" :: result))
    ∧ (∀ (result : List LV) (op : String),
        op = "return" ∨ op = "raise" ∨ op = "yield" →
        pyResultInit result (some op) = .ok (.lstr op :: result))
    ∧ (∀ (result : List LV) (op : String),
        op ≠ "return" → op ≠ "raise" → op ≠ "yield" →
        pyResultInit result (some op) = .error "Invalid PyResult operation")
    ∧ (∀ (result : List LV) (op : Option String) (r : List LV),
        pyResultInit result op = .ok r → r = .lstr (op.getD "return") :: result) := by
  refine ⟨fun result => rfl, ?_, ?_, ?_⟩
  · rintro result op (rfl | rfl | rfl) <;> rfl
  · intro result op h1 h2 h3
    simp [pyResultInit, h1, h2, h3]
  · intro result op r h
    by_cases hc : op.getD "return" = "return" ∨ op.getD "return" = "raise" ∨
        op.getD "return" = "yield"
    · simp only [pyResultInit, if_pos hc, Except.ok.injEq] at h
      exact h.symm
    · simp only [pyResultInit, if_neg hc] at h
      exact absurd h (by simp)

/-- C7 witness: a `yield`-tagged result stores the tag first. -/
theorem pyresult_ops_witness :
    pyResultInit [.lnum 3] (some "yield") = .ok [.lstr "yield", .lnum 3] :=
  pyresult_ops.2.1 [.lnum 3] "yield" (Or.inr (Or.inr rfl))

/-- C8: reading an attribute not defined on the capability object does
not raise: it evaluates to `Nil`, and a script comparing such an
attribute to nil completes normally with status 200 (body `True`). -/
theorem missing_attribute_nil (splash : Capability) (name : String)
    (h : List.lookup name splash = none) :
    evalExpr splash (.splashAttr name) = .lnil
    ∧ supervise (some (.gfn (.ret (some (.eqNilE (.splashAttr name)))))) splash =
        (⟨200, plainTextUtf8, .text (utf8EncodeStr "True")⟩, true) := by
  have h1 : evalExpr splash (.splashAttr name) = .lnil := by
    simp [evalExpr, h]
  refine ⟨h1, ?_⟩
  simp [supervise, runBody, evalExpr, h, finalize, isNil]

/-- C8 witness: probing `splash.foo` on a capability object that only
defines `runjs` yields `Nil` and a 200 response. -/
theorem missing_attribute_nil_witness :
    evalExpr [("runjs", .lfunc 0)] (.splashAttr "foo") = .lnil
    ∧ supervise (some (.gfn (.ret (some (.eqNilE (.splashAttr "foo"))))))
          [("runjs", .lfunc 0)] =
        (⟨200, plainTextUtf8, .text (utf8EncodeStr "True")⟩, true) :=
  missing_attribute_nil [("runjs", .lfunc 0)] "foo" rfl

/-- C10: `ensure_tuple` always returns a tuple, returns tuples
unchanged, wraps non-tuples in a 1-tuple, and is idempotent. -/
theorem ensure_tuple_spec :
    (∀ v : PyObj, ∃ elems, ensure_tuple v = .tup elems)
    ∧ (∀ elems : List PyObj, ensure_tuple (.tup elems) = .tup elems)
    ∧ (∀ id : Nat, ensure_tuple (.other id) = .tup [.other id])
    ∧ (∀ v : PyObj, ensure_tuple (ensure_tuple v) = ensure_tuple v) := by
  refine ⟨fun v => ?_, fun elems => rfl, fun id => rfl, fun v => ?_⟩
  · cases v with
    | tup elems => exact ⟨elems, rfl⟩
    | other id => exact ⟨[.other id], rfl⟩
  · cases v <;> rfl

/-- C1: in `to_host_json` output for an (object-shaped) table, every
entry whose value is `Nil` is omitted and every entry with a non-`Nil`
value appears with exactly its key and value; the entrypoint returning
the test table `{mystatus="ok", number=5, float=-0.5, obj={key="value"},
bool=true, bool2=false, missing=nil}` yields the JSON body without the
`missing` key, status 200 and content type `application/json`. -/
theorem table_nil_omitted :
    (∀ fields : LFields,
      arrayLikeKeys ((propsJson fields).map (fun kv => kv.1)) = false →
      toHostJson (.ltable fields) =
        .jobj (((fieldsList fields).filter (fun kv => !(isNil kv.2))).map
          (fun kv => (keyStr kv.1, toHostJson kv.2))))
    ∧ (∀ splash : Capability,
        supervise (some (.gfn (.ret (some (.lit (.ltable
            (.consF (.kstr "mystatus") (.lstr "ok")
              (.consF (.kstr "number") (.lnum 5)
                (.consF (.kstr "float") (.lnum (-(1/2)))
                  (.consF (.kstr "obj")
                      (.ltable (.consF (.kstr "key") (.lstr "value") .nilF))
                    (.consF (.kstr "bool") (.lbool true)
                      (.consF (.kstr "bool2") (.lbool false)
                        (.consF (.kstr "missing") .lnil .nilF))))))))))))) splash =
          (⟨200, "application/json",
            .json (.jobj
              [("mystatus", .jstr "ok"), ("number", .jnum 5),
               ("float", .jnum (-(1/2))), ("obj", .jobj [("key", .jstr "value")]),
               ("bool", .jbool true), ("bool2", .jbool false)])⟩, true)) := by
  constructor
  · intro fields h
    have hcond : ¬ arrayLikeKeys ((propsJson fields).map (fun kv => kv.1)) = true := by
      rw [h]; simp
    simp only [toHostJson]
    rw [if_neg hcond, propsJson_eq_filter]
    simp [List.map_map, Function.comp]
  · intro splash
    rfl

/-- C1 witness: the general omission statement instantiated at the test
table. -/
theorem table_nil_omitted_witness :
    toHostJson (.ltable
        (.consF (.kstr "mystatus") (.lstr "ok")
          (.consF (.kstr "missing") .lnil .nilF))) =
      .jobj (((fieldsList
          (.consF (.kstr "mystatus") (.lstr "ok")
            (.consF (.kstr "missing") .lnil .nilF))).filter
            (fun kv => !(isNil kv.2))).map
          (fun kv => (keyStr kv.1, toHostJson kv.2))) :=
  table_nil_omitted.1
    (.consF (.kstr "mystatus") (.lstr "ok") (.consF (.kstr "missing") .lnil .nilF))
    (by decide)

/-- C3: a call to `set_result_content_type` whose argument is not a
non-empty string — missing, numeric, a function, any other kind —
fails with `Raise`, and the uncaught script error terminates the whole
request with status 400, independent of whatever the entrypoint would
later return. -/
theorem bad_content_type_arg (splash : Capability) (argE : Option SExpr) (next : Body)
    (h : ∀ s : String, argE.map (evalExpr splash) = some (.lstr s) → s = "") :
    (supervise (some (.gfn (.setContentType argE next))) splash).1.status = 400 := by
  cases harg : argE.map (evalExpr splash) with
  | none => simp [supervise, runBody, harg, setResultContentTypeOp, finalize]
  | some v =>
      cases v with
      | lstr s =>
          have hs : s = "" := h s harg
          subst hs
          simp [supervise, runBody, harg, setResultContentTypeOp, finalize]
      | lnil => simp [supervise, runBody, harg, setResultContentTypeOp, finalize]
      | lbool b => simp [supervise, runBody, harg, setResultContentTypeOp, finalize]
      | lnum q => simp [supervise, runBody, harg, setResultContentTypeOp, finalize]
      | lfunc id => simp [supervise, runBody, harg, setResultContentTypeOp, finalize]
      | ltable fields => simp [supervise, runBody, harg, setResultContentTypeOp, finalize]
      | larr elems => simp [supervise, runBody, harg, setResultContentTypeOp, finalize]

/-- C3 witness: `set_result_content_type(55)` followed by returning the
string `hi!` still ends with status 400. -/
theorem bad_content_type_arg_witness :
    (supervise (some (.gfn (.setContentType (some (.lit (.lnum 55)))
        (.ret (some (.lit (.lstr "hi!"))))))) []).1.status = 400 :=
  bad_content_type_arg [] (some (.lit (.lnum 55))) (.ret (some (.lit (.lstr "hi!"))))
    (fun s hs => by simp [evalExpr] at hs)

/-- C9 counterexample: for `base = "/"` the absolute form of the base is
`"/"` and the claim's prefix "absolute base followed by the separator"
is `"//"`; `path_join_secure` returns `/etc`, which does not start with
`"//"`, and no `ValueError` is raised although the claimed prefix test
fails — so the claim as stated is false at this input. -/
theorem outside_base_counterexample :
    path_join_secure "/cwd" "/" ["etc"] = .ok "/etc"
    ∧ strStarts "/etc" (abspath "/cwd" "/" ++ "/") = false :=
  ⟨rfl, rfl⟩

/-- `path_join_secure` written as one conditional over the prefix it
actually checks. -/
theorem path_join_secure_eq (cwd base : String) (paths : List String) :
    path_join_secure cwd base paths =
      if strStarts (abspath cwd (pjoin (baseWithSep cwd base) paths))
          (baseWithSep cwd base) then
        .ok (abspath cwd (pjoin (baseWithSep cwd base) paths))
      else .error "Resulting path is outside base." := rfl

/-- C9 (amended): `path_join_secure` either returns the absolute joined
path, which then always starts with the absolute form of `base` with a
path separator appended when not already present, or raises `ValueError`
exactly when the absolute joined path does not start with that prefix. -/
theorem secure_join_characterization (cwd base : String) (paths : List String) :
    (∀ p, path_join_secure cwd base paths = .ok p →
      strStarts p (baseWithSep cwd base) = true ∧
      p = abspath cwd (pjoin (baseWithSep cwd base) paths))
    ∧ (path_join_secure cwd base paths = .error "Resulting path is outside base."
        ↔ strStarts (abspath cwd (pjoin (baseWithSep cwd base) paths))
            (baseWithSep cwd base) = false) := by
  rw [path_join_secure_eq]
  by_cases hc : strStarts (abspath cwd (pjoin (baseWithSep cwd base) paths))
      (baseWithSep cwd base) = true
  · rw [if_pos hc]
    constructor
    · intro p hp
      have hpe : abspath cwd (pjoin (baseWithSep cwd base) paths) = p :=
        Except.ok.inj hp
      exact ⟨hpe ▸ hc, hpe.symm⟩
    · simp [hc]
  · have hcf : strStarts (abspath cwd (pjoin (baseWithSep cwd base) paths))
        (baseWithSep cwd base) = false := by
      simpa using hc
    rw [if_neg hc]
    constructor
    · intro p hp
      exact absurd hp (by simp)
    · simp [hcf]

/-- C9 witness: joining `x` under base `/base` returns `/base/x`, which
starts with the checked prefix `/base/` and equals the absolute joined
path. -/
theorem secure_join_witness :
    strStarts "/base/x" (baseWithSep "/cwd" "/base") = true
    ∧ "/base/x" = abspath "/cwd" (pjoin (baseWithSep "/cwd" "/base") ["x"]) :=
  (secure_join_characterization "/cwd" "/base" ["x"]).1 "/base/x" rfl

end Splash
